import Mathlib

/-!
Verification of the PyPDF2 core (reader, writer, page composition,
destinations, security-handler control flow) against its natural-language
specification.  The Python modules `reader.py`, `writer.py`,
`page_object.py`, `destination.py` and `rectangle.py` are shallowly
embedded below; external collaborators that live outside the provided
sources (`generic.py` object serialization, `utils.py` RC4, `algorithms.py`
key derivation, MD5) are either taken as function parameters or modelled
from the specification, as flagged in the corresponding doc comments.

Python dictionaries are embedded as insertion-ordered association lists
whose lookup returns the first (and in an actual `dict`, only) binding of a
key; sequential writes to a byte stream are embedded as list concatenation,
with `tell()` giving the length of what has been written so far.
-/

/-! ## Association lists: the embedding of Python dict objects -/

/-- Lookup in an insertion-ordered association list: value of the first
binding of `k`, mirroring a Python `dict` access (where keys are unique,
so the first binding is the only one). -/
def aLookup {κ V : Type} [DecidableEq κ] : List (κ × V) → κ → Option V
  | [], _ => none
  | (k', v) :: rest, k => if k' = k then some v else aLookup rest k

/-- Python `dict.setdefault(k, v)`: keep an existing binding of `k`
untouched, otherwise add the new binding (faithful to
`self.trailer.setdefault(key, value)` in `PdfFileReader.read`). -/
def setdefaultA {κ V : Type} [DecidableEq κ] (d : List (κ × V)) (k : κ) (v : V) :
    List (κ × V) :=
  match aLookup d k with
  | some _ => d
  | none => d ++ [(k, v)]

/-- Python `d[k] = v` on a dict: replace the binding if `k` is present,
otherwise append it. -/
def aSet {κ V : Type} [DecidableEq κ] (d : List (κ × V)) (k : κ) (v : V) :
    List (κ × V) :=
  match aLookup d k with
  | some _ => d.map (fun e => if e.1 = k then (k, v) else e)
  | none => d ++ [(k, v)]

/-- First-defined choice on options, used to state first-occurrence-wins
properties of the trailer merge. -/
def firstSome {V : Type} (a b : Option V) : Option V :=
  match a with
  | some v => some v
  | none => b

@[simp] theorem firstSome_none_left {V : Type} (b : Option V) :
    firstSome none b = b := rfl

@[simp] theorem firstSome_some_left {V : Type} (v : V) (b : Option V) :
    firstSome (some v) b = some v := rfl

@[simp] theorem firstSome_none_right {V : Type} (a : Option V) : firstSome a none = a := by
  cases a <;> rfl

theorem firstSome_assoc {V : Type} (a b c : Option V) :
    firstSome (firstSome a b) c = firstSome a (firstSome b c) := by
  cases a <;> rfl

theorem aLookup_append {κ V : Type} [DecidableEq κ] (d₁ d₂ : List (κ × V)) (k : κ) :
    aLookup (d₁ ++ d₂) k = firstSome (aLookup d₁ k) (aLookup d₂ k) := by
  induction d₁ with
  | nil => rfl
  | cons e rest ih =>
    obtain ⟨k', v⟩ := e
    by_cases h : k' = k <;> simp [aLookup, h, ih, firstSome]

theorem aLookup_setdefault {κ V : Type} [DecidableEq κ] (d : List (κ × V))
    (k' k : κ) (v' : V) :
    aLookup (setdefaultA d k' v') k =
      firstSome (aLookup d k) (if k' = k then some v' else none) := by
  unfold setdefaultA
  cases hd : aLookup d k' with
  | some w =>
    cases hk : aLookup d k with
    | some u => simp [firstSome]
    | none =>
      by_cases h : k' = k
      · subst h; rw [hd] at hk; cases hk
      · simp [firstSome, h]
  | none =>
    rw [aLookup_append]
    by_cases h : k' = k <;> simp [aLookup, h]

/-! ## C1: trailer merging along the `/Prev` chain (`PdfFileReader.read`) -/

/-- A trailer-bearing cross-reference section, in the order the reader
visits them (file tail first, then following `/Prev`).  A classical table
carries a full trailer dictionary; an xref stream carries the stream
dictionary. -/
inductive TrailerSource (V : Type) where
  | classical (t : List (String × V))
  | xrefStream (x : List (String × V))

/-- The keys `PdfFileReader.read` copies out of an xref stream dictionary:
`trailerKeys = "/Root", "/Encrypt", "/Info", "/ID"`. -/
def xrefTrailerKeys : List String := ["/Root", "/Encrypt", "/Info", "/ID"]

/-- Classical-table trailer merge step, from `PdfFileReader.read`:
`for key, value in newTrailer.items(): self.trailer.setdefault(key, value)`. -/
def mergeClassicalTrailer {V : Type} (acc t : List (String × V)) :
    List (String × V) :=
  t.foldl (fun a e => setdefaultA a e.1 e.2) acc

/-- Body of the xref-stream key loop of `PdfFileReader.read`:
`if key in xrefstream and key not in self.trailer:
self.trailer[NameObject(key)] = xrefstream.raw_get(key)`. -/
def xrefKeyStep {V : Type} (x a : List (String × V)) (k : String) :
    List (String × V) :=
  match aLookup x k, aLookup a k with
  | some v, none => a ++ [(k, v)]
  | _, _ => a

/-- Xref-stream trailer merge step, from `PdfFileReader.read`:
`for key in trailerKeys: ...` with `xrefKeyStep` as loop body. -/
def mergeXrefStreamTrailer {V : Type} (acc x : List (String × V)) :
    List (String × V) :=
  xrefTrailerKeys.foldl (xrefKeyStep x) acc

/-- One step of the `while 1` loop of `PdfFileReader.read`, restricted to
its effect on `self.trailer`. -/
def mergeTrailerStep {V : Type} (acc : List (String × V)) :
    TrailerSource V → List (String × V)
  | .classical t => mergeClassicalTrailer acc t
  | .xrefStream x => mergeXrefStreamTrailer acc x

/-- The merged trailer after the reader has followed the whole `/Prev`
chain, visiting `srcs` tail-of-file first. -/
def readTrailerChain {V : Type} (srcs : List (TrailerSource V)) :
    List (String × V) :=
  srcs.foldl mergeTrailerStep []

/-- What a single cross-reference section can contribute for a key: a
classical trailer offers any of its keys, an xref stream only `/Root`,
`/Encrypt`, `/Info` and `/ID`. -/
def trailerContribution {V : Type} (s : TrailerSource V) (k : String) : Option V :=
  match s with
  | .classical t => aLookup t k
  | .xrefStream x => if k ∈ xrefTrailerKeys then aLookup x k else none

/-- First-occurrence-wins reading of the chain: the value of the earliest
visited (tail-most) section that contributes the key. -/
def firstContribution {V : Type} : List (TrailerSource V) → String → Option V
  | [], _ => none
  | s :: rest, k => firstSome (trailerContribution s k) (firstContribution rest k)

theorem aLookup_mergeClassicalTrailer {V : Type} (t acc : List (String × V))
    (k : String) :
    aLookup (mergeClassicalTrailer acc t) k =
      firstSome (aLookup acc k) (aLookup t k) := by
  induction t generalizing acc with
  | nil => simp [mergeClassicalTrailer, aLookup]
  | cons e rest ih =>
    obtain ⟨k', v'⟩ := e
    show aLookup (mergeClassicalTrailer (setdefaultA acc k' v') rest) k = _
    rw [ih, aLookup_setdefault, firstSome_assoc]
    by_cases h : k' = k <;> simp [aLookup, h]

theorem aLookup_mergeXrefKeysAux {V : Type} (x : List (String × V)) (k : String) :
    ∀ (keys : List String) (acc : List (String × V)),
      aLookup (keys.foldl (xrefKeyStep x) acc) k =
      firstSome (aLookup acc k) (if k ∈ keys then aLookup x k else none) := by
  intro keys
  induction keys with
  | nil => intro acc; simp
  | cons k' rest ih =>
    intro acc
    rw [List.foldl_cons, ih]
    have hmem : k ∈ k' :: rest ↔ k = k' ∨ k ∈ rest := List.mem_cons
    by_cases hk : k' = k
    · subst hk
      cases hx : aLookup x k' with
      | some v =>
        cases ha : aLookup acc k' with
        | some u => simp [xrefKeyStep, hx, ha]
        | none =>
          simp [xrefKeyStep, hx, ha, aLookup_append, aLookup]
      | none =>
        cases ha : aLookup acc k' with
        | some u => simp [xrefKeyStep, hx, ha]
        | none =>
          by_cases hr : k' ∈ rest <;> simp [xrefKeyStep, hx, ha, hr]
    · have hstep : aLookup (xrefKeyStep x acc k') k = aLookup acc k := by
        cases hx : aLookup x k' with
        | some v =>
          cases ha : aLookup acc k' with
          | some u => simp [xrefKeyStep, hx, ha]
          | none => simp [xrefKeyStep, hx, ha, aLookup_append, aLookup, hk]
        | none =>
          cases ha : aLookup acc k' with
          | some u => simp [xrefKeyStep, hx, ha]
          | none => simp [xrefKeyStep, hx, ha]
      rw [hstep]
      have : (k ∈ k' :: rest) ↔ (k ∈ rest) := by
        rw [hmem]
        constructor
        · rintro (h | h)
          · exact absurd h.symm hk
          · exact h
        · exact Or.inr
      by_cases hr : k ∈ rest <;> simp [hr, this.symm, this]

theorem aLookup_mergeXrefStreamTrailer {V : Type} (x acc : List (String × V))
    (k : String) :
    aLookup (mergeXrefStreamTrailer acc x) k =
      firstSome (aLookup acc k)
        (if k ∈ xrefTrailerKeys then aLookup x k else none) :=
  aLookup_mergeXrefKeysAux x k xrefTrailerKeys acc

theorem aLookup_readTrailerAux {V : Type} (srcs : List (TrailerSource V))
    (k : String) :
    ∀ acc, aLookup (srcs.foldl mergeTrailerStep acc) k =
      firstSome (aLookup acc k) (firstContribution srcs k) := by
  induction srcs with
  | nil => intro acc; simp [firstContribution, firstSome_none_right]
  | cons s rest ih =>
    intro acc
    show aLookup (rest.foldl mergeTrailerStep (mergeTrailerStep acc s)) k = _
    rw [ih]
    cases s with
    | classical t =>
      rw [show mergeTrailerStep acc (.classical t) = mergeClassicalTrailer acc t
            from rfl,
          aLookup_mergeClassicalTrailer, firstSome_assoc]
      rfl
    | xrefStream x =>
      rw [show mergeTrailerStep acc (.xrefStream x) = mergeXrefStreamTrailer acc x
            from rfl,
          aLookup_mergeXrefStreamTrailer, firstSome_assoc]
      rfl

/-- C1.  Trailer dictionaries met while following the `/Prev` chain from the
tail of the file are merged first-occurrence-wins: for every key, the merged
trailer holds the value of the earliest-read section that contributes that
key, where a classical table contributes every key of its trailer (via
`setdefault`) and an xref stream contributes only `/Root`, `/Encrypt`,
`/Info`, `/ID`, and only when the key is still absent. -/
theorem trailer_merge_first_occurrence_wins {V : Type}
    (srcs : List (TrailerSource V)) (k : String) :
    aLookup (readTrailerChain srcs) k = firstContribution srcs k := by
  rw [readTrailerChain, aLookup_readTrailerAux]
  rfl

/-! ## C2: `Destination.__init__` fit-type handling (`destination.py`) -/

/-- The error sum of the embedded code: `utils.PdfReadError`, the Python
`ValueError` raised by a failed tuple unpacking, and `NotImplementedError`. -/
inductive PdfError where
  | pdfRead (msg : String)
  | valueUnpack
  | notImplemented (msg : String)
  deriving DecidableEq

/-- A constructed `Destination` dictionary: the `/Title`, `/Page`, `/Type`
entries plus the fit-type specific coordinate entries, in insertion order. -/
structure DestData (α : Type) where
  title : α
  page : α
  typ : String
  fields : List (String × α)
  deriving DecidableEq

/-- `Destination.__init__(title, page, typ, *args)`, translated branch by
branch from `destination.py`.  Note the source compares the B variants
against the strings without a leading slash (`"FitBH"`, `"FitBV"`,
`"FitB"`). -/
def destinationInit {α : Type} (title page : α) (typ : String) (args : List α) :
    Except PdfError (DestData α) :=
  if typ = "/XYZ" then
    match args with
    | [left, top, zoom] =>
      .ok ⟨title, page, typ, [("/Left", left), ("/Top", top), ("/Zoom", zoom)]⟩
    | _ => .error .valueUnpack
  else if typ = "/FitR" then
    match args with
    | [left, bottom, right, top] =>
      .ok ⟨title, page, typ,
        [("/Left", left), ("/Bottom", bottom), ("/Right", right), ("/Top", top)]⟩
    | _ => .error .valueUnpack
  else if typ = "/FitH" ∨ typ = "FitBH" then
    match args with
    | [top] => .ok ⟨title, page, typ, [("/Top", top)]⟩
    | _ => .error .valueUnpack
  else if typ = "/FitV" ∨ typ = "FitBV" then
    match args with
    | [left] => .ok ⟨title, page, typ, [("/Left", left)]⟩
    | _ => .error .valueUnpack
  else if typ = "/Fit" ∨ typ = "FitB" then
    .ok ⟨title, page, typ, []⟩
  else
    .error (.pdfRead ("Unknown Destination Type"))

/-- C2 counterexample: constructing a `Destination` with the canonical
fit type `/FitB` (with its leading slash, exactly as parsed from a PDF) and
the table's empty operand list raises the malformed-PDF error instead of
succeeding, because the source only accepts the slashless string `FitB`. -/
theorem destination_slash_fitB_raises :
    destinationInit (0 : Nat) 0 ("/FitB") [] =
      Except.error (PdfError.pdfRead ("Unknown Destination Type")) := rfl

/-- C2 (amended).  `Destination` construction succeeds exactly for
`/XYZ`, `/FitR`, `/FitH`, `/FitV`, `/Fit` and for the slashless legacy
names `FitBH`, `FitBV`, `FitB`, each with the table's tail operands; every
other type string, including the canonical `/FitB`, `/FitBH`, `/FitBV`,
raises the malformed-PDF error. -/
theorem destination_fit_type_handling {α : Type} (title page a b c d : α)
    (typ : String) (args : List α)
    (h : typ ∉ (["/XYZ", "/FitR", "/FitH", "FitBH", "/FitV", "FitBV",
                 "/Fit", "FitB"] : List String)) :
    destinationInit title page ("/XYZ") [a, b, c] =
      .ok ⟨title, page, "/XYZ", [("/Left", a), ("/Top", b), ("/Zoom", c)]⟩
  ∧ destinationInit title page ("/FitR") [a, b, c, d] =
      .ok ⟨title, page, "/FitR",
        [("/Left", a), ("/Bottom", b), ("/Right", c), ("/Top", d)]⟩
  ∧ destinationInit title page ("/FitH") [b] =
      .ok ⟨title, page, "/FitH", [("/Top", b)]⟩
  ∧ destinationInit title page ("FitBH") [b] =
      .ok ⟨title, page, "FitBH", [("/Top", b)]⟩
  ∧ destinationInit title page ("/FitV") [a] =
      .ok ⟨title, page, "/FitV", [("/Left", a)]⟩
  ∧ destinationInit title page ("FitBV") [a] =
      .ok ⟨title, page, "FitBV", [("/Left", a)]⟩
  ∧ destinationInit title page ("/Fit") [] = .ok ⟨title, page, "/Fit", []⟩
  ∧ destinationInit title page ("FitB") [] = .ok ⟨title, page, "FitB", []⟩
  ∧ destinationInit title page typ args =
      .error (.pdfRead ("Unknown Destination Type")) := by
  simp only [List.mem_cons, List.mem_singleton, not_or] at h
  obtain ⟨h1, h2, h3, h4, h5, h6, h7, h8, -⟩ := h
  refine ⟨rfl, rfl, rfl, rfl, rfl, rfl, rfl, rfl, ?_⟩
  simp [destinationInit, h1, h2, h3, h4, h5, h6, h7, h8]

/-- C2 witness: the amended theorem applied at a concrete unknown type. -/
theorem destination_fit_type_handling_witness :
    destinationInit (0 : Nat) 0 ("/Bogus") [] =
      Except.error (PdfError.pdfRead ("Unknown Destination Type")) :=
  (destination_fit_type_handling 0 0 1 2 3 4 ("/Bogus") [] (by decide)).2.2.2.2.2.2.2.2

/-! ## C8: per-object RC4 key derivation (reader `getObject`, writer `write`) -/

/-- `struct.pack("<i", n)[:3]`: the low three bytes of `n`, little-endian
(the reader packs the object id this way; ids are nonnegative and well
below `2^31`). -/
def packLow3 (n : Nat) : List Nat := [n % 256, n / 256 % 256, n / 65536 % 256]

/-- `struct.pack("<i", n)[:2]`: the low two bytes of `n`, little-endian. -/
def packLow2 (n : Nat) : List Nat := [n % 256, n / 256 % 256]

/-- Per-object key computed by `PdfFileReader.getObject` before decrypting
an object: `md5(self._decryption_key + pack1 + pack2).digest()` truncated
to `min(16, len(key0) + 5)` bytes.  The MD5 primitive is an external
collaborator passed as a function. -/
def readerObjectKey (md5 : List Nat → List Nat) (dkey : List Nat)
    (idnum gen : Nat) : List Nat :=
  (md5 (dkey ++ packLow3 idnum ++ packLow2 gen)).take (min 16 (dkey.length + 5))

/-- Per-object key computed by `PdfFileWriter.write` before serializing the
object at 0-based index `i` (object id `i + 1`, generation `0`):
`md5(self._encrypt_key + pack("<i", i+1)[:3] + pack("<i", 0)[:2])`
truncated to `min(16, len(key0) + 5)` bytes. -/
def writerObjectKey (md5 : List Nat → List Nat) (ekey : List Nat)
    (i : Nat) : List Nat :=
  (md5 (ekey ++ packLow3 (i + 1) ++ packLow2 0)).take (min 16 (ekey.length + 5))

/-- Modelled from the spec: the per-object key of section 4.I — append the
little-endian low-3 bytes of `id` and low-2 bytes of `gen` to the document
key `K`, MD5 it, truncate to `min(16, len(K) + 5)` bytes. -/
def specObjectKey (md5 : List Nat → List Nat) (K : List Nat)
    (idnum gen : Nat) : List Nat :=
  (md5 (K ++ [idnum % 256, idnum / 256 % 256, idnum / 65536 % 256]
          ++ [gen % 256, gen / 256 % 256])).take (min 16 (K.length + 5))

/-- C8.  The reader's per-object decryption key and the writer's per-object
encryption key are both the key described by the spec: MD5 of the document
key extended with the id's low three and the generation's low two bytes
(little-endian), truncated to `min(16, len(K) + 5)`; in particular the
writer's key for the object at index `i` is the reader's key for
`(id, gen) = (i + 1, 0)`. -/
theorem per_object_key_agreement (md5 : List Nat → List Nat) (K : List Nat)
    (idnum gen i : Nat) :
    readerObjectKey md5 K idnum gen = specObjectKey md5 K idnum gen
  ∧ writerObjectKey md5 K i = specObjectKey md5 K (i + 1) 0
  ∧ writerObjectKey md5 K i = readerObjectKey md5 K (i + 1) 0 :=
  ⟨rfl, rfl, rfl⟩

/-! ## C10: the pages-root `/Count` and `/Kids` invariant (`writer.py`) -/

/-- Python's `list.insert(i, x)` for a nonnegative index: insert before
position `i`, clamping to the end when `i` exceeds the length. -/
def pyInsert {β : Type} (i : Nat) (x : β) (l : List β) : List β :=
  l.take i ++ x :: l.drop i

/-- The pages-root dictionary of a `PdfFileWriter`: its `/Count` number and
its `/Kids` array (held as the ids of the kid page objects). -/
structure PagesNode where
  count : Nat
  kids : List Nat
  deriving DecidableEq

/-- The writer state relevant to page bookkeeping: how many objects are
owned (`len(self._objects)`) and the pages-root node. -/
structure WriterPagesState where
  numObjects : Nat
  pages : PagesNode
  deriving DecidableEq

/-- `PdfFileWriter.__init__`: three objects (pages root, info, root) are
added; the pages root starts with `/Count 0` and empty `/Kids`. -/
def initWriterPages : WriterPagesState := ⟨3, ⟨0, []⟩⟩

/-- `PdfFileWriter._addPage(page, list.append)` (the `addPage` path):
`_addObject` appends the page (new id `len + 1`), the kid is appended to
`/Kids`, and `/Count` is incremented by one. -/
def addPageSt (st : WriterPagesState) : WriterPagesState :=
  ⟨st.numObjects + 1,
   ⟨st.pages.count + 1, st.pages.kids ++ [st.numObjects + 1]⟩⟩

/-- `PdfFileWriter._addPage(page, lambda l, p: l.insert(index, p))` (the
`insertPage` path). -/
def insertPageSt (idx : Nat) (st : WriterPagesState) : WriterPagesState :=
  ⟨st.numObjects + 1,
   ⟨st.pages.count + 1, pyInsert idx (st.numObjects + 1) st.pages.kids⟩⟩

/-- The page-adding calls of the writer API.  `addBlankPage` and
`insertBlankPage` first build the blank page (`createBlankPage`, which can
raise `PageSizeNotDefinedError` before any mutation happens — the `ok`
flag records whether it succeeded) and then delegate to `addPage` /
`insertPage`. -/
inductive PageCall where
  | add
  | insert (idx : Nat)
  | addBlank (ok : Bool)
  | insertBlank (ok : Bool) (idx : Nat)

def applyPageCall (st : WriterPagesState) : PageCall → WriterPagesState
  | .add => addPageSt st
  | .insert idx => insertPageSt idx st
  | .addBlank ok => if ok then addPageSt st else st
  | .insertBlank ok idx => if ok then insertPageSt idx st else st

/-- `PdfFileWriter.getNumPages`: `int(pages["/Count"])`. -/
def getNumPagesW (st : WriterPagesState) : Nat := st.pages.count

theorem length_pyInsert {β : Type} (i : Nat) (x : β) (l : List β) :
    (pyInsert i x l).length = l.length + 1 := by
  simp only [pyInsert, List.length_append, List.length_cons, List.length_take,
    List.length_drop]
  omega

theorem applyPageCall_preserves (st : WriterPagesState) (c : PageCall)
    (h : st.pages.count = st.pages.kids.length) :
    (applyPageCall st c).pages.count = (applyPageCall st c).pages.kids.length := by
  cases c with
  | add => simp [applyPageCall, addPageSt, h]
  | insert idx => simp [applyPageCall, insertPageSt, length_pyInsert, h]
  | addBlank ok =>
    cases ok <;> simp [applyPageCall, addPageSt, h]
  | insertBlank ok idx =>
    cases ok <;> simp [applyPageCall, insertPageSt, length_pyInsert, h]

theorem foldPageCalls_preserves (calls : List PageCall) :
    ∀ st : WriterPagesState, st.pages.count = st.pages.kids.length →
      (calls.foldl applyPageCall st).pages.count =
        (calls.foldl applyPageCall st).pages.kids.length := by
  induction calls with
  | nil => intro st h; exact h
  | cons c rest ih =>
    intro st h
    exact ih (applyPageCall st c) (applyPageCall_preserves st c h)

/-- C10.  After any sequence of `addPage` / `insertPage` / `addBlankPage` /
`insertBlankPage` calls on a fresh `PdfFileWriter`, the pages root's
`/Count` equals the length of its `/Kids` array and `getNumPages` returns
that common value; moreover each successful call inserts exactly one kid
and increments `/Count` by exactly one. -/
theorem writer_count_matches_kids (calls : List PageCall) :
    ((calls.foldl applyPageCall initWriterPages).pages.count =
        (calls.foldl applyPageCall initWriterPages).pages.kids.length
      ∧ getNumPagesW (calls.foldl applyPageCall initWriterPages) =
        (calls.foldl applyPageCall initWriterPages).pages.kids.length)
  ∧ ∀ st : WriterPagesState,
      ((applyPageCall st .add).pages.count = st.pages.count + 1
        ∧ (applyPageCall st .add).pages.kids.length = st.pages.kids.length + 1)
    ∧ ∀ idx : Nat,
        (applyPageCall st (.insert idx)).pages.count = st.pages.count + 1
      ∧ (applyPageCall st (.insert idx)).pages.kids.length =
          st.pages.kids.length + 1 := by
  have hinv := foldPageCalls_preserves calls initWriterPages rfl
  refine ⟨⟨hinv, hinv⟩, ?_⟩
  intro st
  refine ⟨⟨rfl, by simp [applyPageCall, addPageSt]⟩, ?_⟩
  intro idx
  exact ⟨rfl, by simp [applyPageCall, insertPageSt, length_pyInsert]⟩

/-! ## C3: `PdfFileReader._decrypt` return codes (`reader.py`) -/

/-- The `/Encrypt` dictionary entries `_decrypt` consults: `/Filter`,
`/V`, `/R`, `/Length` (in bits) and the owner entry `/O` (as bytes). -/
structure EncryptDict where
  filter : String
  algV : Nat
  rev : Nat
  keyBits : Nat
  bigO : List Nat

/-- The owner-password reversal in the `else` branch of
`PdfFileReader._decrypt`: derive the revision-dependent key with
`_alg33_1(password, rev, keylen)` and undo the RC4 layer(s) on `/O` to
recover the user password.  Revision 2 applies RC4 once; revision 3 applies
RC4 twenty times with the key bytes XORed by `i` for `i = 19 .. 0`.
`_alg33_1` (absent `algorithms.py`) and `RC4_encrypt` (absent `utils.py`)
are external collaborators passed as functions. -/
def recoverUserpass (alg33x : List Nat → Nat → Nat → List Nat)
    (rc4 : List Nat → List Nat → List Nat) (enc : EncryptDict)
    (password : List Nat) : List Nat :=
  let keylen := if enc.rev = 2 then 5 else enc.keyBits / 8
  let key := alg33x password enc.rev keylen
  if enc.rev = 2 then rc4 key enc.bigO
  else
    ((List.range 20).reverse).foldl
      (fun val i => rc4 (key.map (fun b => b ^^^ i)) val) enc.bigO

/-- `PdfFileReader._decrypt(password)`, with
`self._authenticateUserPassword` abstracted as `auth : password ↦
(matched, key)` (its internals call the absent `_alg34` / `_alg35`).  The
result pairs the return code with the stored decryption key
(`self._decryption_key`), `none` when nothing was stored. -/
def pdfDecrypt (auth : List Nat → Bool × List Nat)
    (alg33x : List Nat → Nat → Nat → List Nat)
    (rc4 : List Nat → List Nat → List Nat) (enc : EncryptDict)
    (password : List Nat) : Except PdfError (Nat × Option (List Nat)) :=
  if enc.filter ≠ "/Standard" then
    .error (.notImplemented ("only Standard PDF encryption handler is available"))
  else if ¬(enc.algV = 1 ∨ enc.algV = 2) then
    .error (.notImplemented ("only algorithm code 1 and 2 are supported"))
  else
    let r1 := auth password
    if r1.1 then .ok (1, some r1.2)
    else
      let r2 := auth (recoverUserpass alg33x rc4 enc password)
      if r2.1 then .ok (2, some r2.2) else .ok (0, none)

/-- C3.  For a Standard-handler document with `V ∈ {1, 2}`,
`decrypt(password)` never raises; it returns `1` exactly when the password
authenticates as the user password (storing that key), otherwise returns
`2` exactly when the user password recovered from `/O` via the
candidate-as-owner-password authenticates (storing that key), and otherwise
returns `0` with no key stored. -/
theorem decrypt_return_codes (auth : List Nat → Bool × List Nat)
    (alg33x : List Nat → Nat → Nat → List Nat)
    (rc4 : List Nat → List Nat → List Nat) (enc : EncryptDict)
    (password : List Nat)
    (hf : enc.filter = "/Standard") (hv : enc.algV = 1 ∨ enc.algV = 2) :
    (∃ v, pdfDecrypt auth alg33x rc4 enc password = Except.ok v)
  ∧ (pdfDecrypt auth alg33x rc4 enc password = .ok (1, some (auth password).2)
      ↔ (auth password).1 = true)
  ∧ ((auth password).1 = false →
      (pdfDecrypt auth alg33x rc4 enc password =
          .ok (2, some (auth (recoverUserpass alg33x rc4 enc password)).2)
        ↔ (auth (recoverUserpass alg33x rc4 enc password)).1 = true))
  ∧ ((auth password).1 = false →
      (auth (recoverUserpass alg33x rc4 enc password)).1 = false →
      pdfDecrypt auth alg33x rc4 enc password = .ok (0, none)) := by
  unfold pdfDecrypt
  rw [if_neg (by simp [hf]), if_neg (by simp [hv])]
  cases h1 : (auth password).1 with
  | true =>
    simp only [h1, if_true]
    exact ⟨⟨_, rfl⟩, by simp, by simp, by simp⟩
  | false =>
    simp only [h1, Bool.false_eq_true, if_false]
    cases h2 : (auth (recoverUserpass alg33x rc4 enc password)).1 with
    | true =>
      simp only [h2, if_true]
      exact ⟨⟨_, rfl⟩, by simp, by simp, by simp⟩
    | false =>
      simp only [h2, Bool.false_eq_true, if_false]
      exact ⟨⟨_, rfl⟩, by simp, by simp, by simp⟩

/-- C3 witness: a concrete Standard `V = 2` dictionary where the candidate
matches the user password, giving return code 1 with the key stored. -/
theorem decrypt_return_codes_witness :
    pdfDecrypt (fun p => (decide (p = [1]), [7])) (fun _ _ _ => [])
      (fun _ v => v) ⟨"/Standard", 2, 3, 128, [5]⟩ [1] =
      Except.ok (1, some [7]) := by
  have h := decrypt_return_codes (fun p => (decide (p = [1]), [7]))
    (fun _ _ _ => []) (fun _ v => v) ⟨"/Standard", 2, 3, 128, [5]⟩ [1]
    rfl (Or.inr rfl)
  exact h.2.1.mpr (by decide)

/-! ## C4: `PdfFileWriter.write` emission and the xref table (`writer.py`)

The stream is embedded as the list of characters written so far;
`stream.tell()` is its length.  Object bodies (produced by the external
`writeToStream` of `generic.py`) and the trailer dictionary bytes are taken
as parameters; a `none` body is the `None` placeholder objects skip
(`if obj is not None`), which still get a header line and an xref entry. -/

/-- Decimal digits of `n`, least significant first, computed with
structural fuel so that it evaluates by `rfl`/`decide`. -/
def decimalDigitsAux : Nat → Nat → List Nat
  | 0, _ => []
  | fuel + 1, n => if n = 0 then [] else n % 10 :: decimalDigitsAux fuel (n / 10)

/-- Python `str(n)` for a natural number: its decimal representation. -/
def decimalRepr (n : Nat) : List Char :=
  if n = 0 then ['0'] else ((decimalDigitsAux n n).map Nat.digitChar).reverse

/-- Zero padding on the left, as done by the `"%010d"` / `"%05d"` format
specifiers (which never truncate). -/
def padZeros (w : Nat) (s : List Char) : List Char :=
  List.replicate (w - s.length) '0' ++ s

/-- `"%0wd" % n`. -/
def fmtD (w n : Nat) : List Char := padZeros w (decimalRepr n)

/-- One xref table entry, `"%010d %05d n \n" % (offset, gen)` (or the free
entry with flag `f`). -/
def xrefEntryLine (offset gen : Nat) (flag : Char) : List Char :=
  fmtD 10 offset ++ [' '] ++ fmtD 5 gen ++ [' ', flag, ' ', '\n']

/-- The object header `str(idnum) + " 0 obj\n"` written for every owned
object. -/
def objHeaderBytes (idnum : Nat) : List Char :=
  decimalRepr idnum ++ (" 0 obj\n").data

/-- Bytes emitted for one owned object: the header, then (unless the object
is a `None` placeholder) its serialized body and `"\nendobj\n"`. -/
def emitObject (idnum : Nat) (body : Option (List Char)) : List Char :=
  objHeaderBytes idnum ++
    (match body with
     | some b => b ++ ("\nendobj\n").data
     | none => [])

/-- Concatenated object section, ids counting up from `idx`. -/
def objectsChunk : Nat → List (Option (List Char)) → List Char
  | _, [] => []
  | idx, b :: rest => emitObject idx b ++ objectsChunk (idx + 1) rest

/-- The `object_positions` list: `stream.tell()` at the moment each
object's header is written, starting from stream position `base`. -/
def objectPositions : Nat → Nat → List (Option (List Char)) → List Nat
  | _, _, [] => []
  | base, idx, b :: rest =>
    base :: objectPositions (base + (emitObject idx b).length) (idx + 1) rest

/-- `self._header + b_("\n")`. -/
def pdfHeaderBytes : List Char := ("%PDF-1.3\n").data

/-- `xref_location = stream.tell()` right before the xref table. -/
def xrefStart (bodies : List (Option (List Char))) : Nat :=
  (pdfHeaderBytes ++ objectsChunk 1 bodies).length

def writerPositions (bodies : List (Option (List Char))) : List Nat :=
  objectPositions pdfHeaderBytes.length 1 bodies

/-- The xref section: `"xref\n"`, the subsection header `"0 N\n"` with
`N = len(self._objects) + 1`, the free entry, then one entry per object in
id order. -/
def xrefChunk (bodies : List (Option (List Char))) : List Char :=
  ("xref\n0 ").data ++ decimalRepr (bodies.length + 1) ++ ['\n'] ++
  xrefEntryLine 0 65535 'f' ++
  ((writerPositions bodies).map (fun off => xrefEntryLine off 0 'n')).flatten

/-- Everything `PdfFileWriter.write` emits: header, objects, xref table,
`"trailer\n"`, the trailer dict bytes, and the startxref record. -/
def writeOutput (bodies : List (Option (List Char))) (trailerBytes : List Char) :
    List Char :=
  pdfHeaderBytes ++ objectsChunk 1 bodies ++ xrefChunk bodies ++
  ("trailer\n").data ++ trailerBytes ++ ("\nstartxref\n").data ++
  decimalRepr (xrefStart bodies) ++ ("\n%%EOF\n").data

theorem decimalDigitsAux_length_le :
    ∀ (fuel n w : Nat), n < 10 ^ w → (decimalDigitsAux fuel n).length ≤ w := by
  intro fuel
  induction fuel with
  | zero => intro n w _; simp [decimalDigitsAux]
  | succ fuel ih =>
    intro n w hn
    by_cases h0 : n = 0
    · simp [decimalDigitsAux, h0]
    · cases w with
      | zero =>
        exfalso
        simp only [pow_zero, Nat.lt_one_iff] at hn
        exact h0 hn
      | succ w' =>
        have hdiv : n / 10 < 10 ^ w' := by
          rw [Nat.div_lt_iff_lt_mul (by norm_num : 0 < 10)]
          calc n < 10 ^ (w' + 1) := hn
            _ = 10 ^ w' * 10 := by ring
        simp only [decimalDigitsAux, h0, if_false, List.length_cons]
        exact Nat.succ_le_succ (ih (n / 10) w' hdiv)

theorem decimalRepr_length_le (n w : Nat) (hw : 1 ≤ w) (h : n < 10 ^ w) :
    (decimalRepr n).length ≤ w := by
  unfold decimalRepr
  by_cases h0 : n = 0
  · simpa [h0] using hw
  · simpa [h0] using decimalDigitsAux_length_le n n w h

theorem fmtD_length (w n : Nat) (hw : 1 ≤ w) (h : n < 10 ^ w) :
    (fmtD w n).length = w := by
  have hle := decimalRepr_length_le n w hw h
  simp only [fmtD, padZeros, List.length_append, List.length_replicate]
  omega

theorem xrefEntryLine_length (off : Nat) (h : off < 10 ^ 10) :
    (xrefEntryLine off 0 'n').length = 20 := by
  have h10 := fmtD_length 10 off (by norm_num) h
  have h5 := fmtD_length 5 0 (by norm_num) (by norm_num)
  simp [xrefEntryLine, h10, h5]

theorem objectPositions_length :
    ∀ (bs : List (Option (List Char))) (base idx : Nat),
      (objectPositions base idx bs).length = bs.length := by
  intro bs
  induction bs with
  | nil => intro base idx; rfl
  | cons b rest ih => intro base idx; simp [objectPositions, ih]

theorem objectPositions_le :
    ∀ (bs : List (Option (List Char))) (base idx i off : Nat),
      (objectPositions base idx bs)[i]? = some off →
      off ≤ base + (objectsChunk idx bs).length := by
  intro bs
  induction bs with
  | nil => intro base idx i off h; simp [objectPositions] at h
  | cons b rest ih =>
    intro base idx i off h
    cases i with
    | zero =>
      simp only [objectPositions, List.getElem?_cons_zero, Option.some.injEq] at h
      subst h
      exact Nat.le_add_right _ _
    | succ i' =>
      simp only [objectPositions, List.getElem?_cons_succ] at h
      have := ih (base + (emitObject idx b).length) (idx + 1) i' off h
      simp only [objectsChunk, List.length_append]
      omega

theorem objectPositions_point :
    ∀ (bs : List (Option (List Char))) (idx : Nat) (pre rest : List Char)
      (i off : Nat),
      (objectPositions pre.length idx bs)[i]? = some off →
      ((pre ++ (objectsChunk idx bs ++ rest)).drop off).take
          (objHeaderBytes (idx + i)).length = objHeaderBytes (idx + i) := by
  intro bs
  induction bs with
  | nil => intro idx pre rest i off h; simp [objectPositions] at h
  | cons b bs' ih =>
    intro idx pre rest i off h
    cases i with
    | zero =>
      simp only [objectPositions, List.getElem?_cons_zero, Option.some.injEq] at h
      subst h
      have hsplit :
          pre ++ (objectsChunk idx (b :: bs') ++ rest) =
          pre ++ (objHeaderBytes idx ++
            ((match b with
              | some bb => bb ++ ("\nendobj\n").data
              | none => ([] : List Char)) ++
              (objectsChunk (idx + 1) bs' ++ rest))) := by
        simp [objectsChunk, emitObject]
      rw [hsplit, List.drop_left, Nat.add_zero]
      exact List.take_left _ _
    | succ i' =>
      simp only [objectPositions, List.getElem?_cons_succ] at h
      have h' : (objectPositions (pre ++ emitObject idx b).length (idx + 1) bs')[i']?
          = some off := by
        rwa [List.length_append]
      have := ih (idx + 1) (pre ++ emitObject idx b) rest i' off h'
      rw [show idx + (i' + 1) = idx + 1 + i' from by omega]
      rw [show pre ++ (objectsChunk idx (b :: bs') ++ rest) =
            (pre ++ emitObject idx b) ++ (objectsChunk (idx + 1) bs' ++ rest) from by
        simp [objectsChunk]]
      exact this

/-- C4.  At the recorded xref location, `write` emits `xref`, the
subsection header `0 N`, the free entry `0000000000 65535 f `, and one
20-byte `%010d %05d n ` entry per owned object in ascending id order whose
offset is the stream position where that object's `idnum 0 obj` header was
written; consequently the bytes at each entry's offset begin with the
header `id 0 obj`.  (The 20-byte count needs the offsets to fit in ten
digits, i.e. the pre-xref output shorter than `10^10` bytes.) -/
theorem writer_xref_table (bodies : List (Option (List Char)))
    (trailerBytes : List Char) (hbound : xrefStart bodies < 10 ^ 10) :
    ((writeOutput bodies trailerBytes).drop (xrefStart bodies) =
      ("xref\n0 ").data ++ decimalRepr (bodies.length + 1) ++ ['\n'] ++
      ("0000000000 65535 f \n").data ++
      ((writerPositions bodies).map (fun off => xrefEntryLine off 0 'n')).flatten ++
      (("trailer\n").data ++ trailerBytes ++ ("\nstartxref\n").data ++
        decimalRepr (xrefStart bodies) ++ ("\n%%EOF\n").data))
  ∧ (writerPositions bodies).length = bodies.length
  ∧ (∀ i off, (writerPositions bodies)[i]? = some off →
      (xrefEntryLine off 0 'n').length = 20
      ∧ ((writeOutput bodies trailerBytes).drop off).take
          (objHeaderBytes (1 + i)).length = objHeaderBytes (1 + i)) := by
  refine ⟨?_, objectPositions_length bodies _ 1, ?_⟩
  · have hfree : xrefEntryLine 0 65535 'f' = ("0000000000 65535 f \n").data := rfl
    rw [show writeOutput bodies trailerBytes =
        (pdfHeaderBytes ++ objectsChunk 1 bodies) ++
          (xrefChunk bodies ++
            (("trailer\n").data ++ trailerBytes ++ ("\nstartxref\n").data ++
              decimalRepr (xrefStart bodies) ++ ("\n%%EOF\n").data)) from by
      simp [writeOutput]]
    rw [show xrefStart bodies = (pdfHeaderBytes ++ objectsChunk 1 bodies).length
          from rfl]
    rw [List.drop_left]
    simp [xrefChunk, hfree]
  · intro i off h
    constructor
    · apply xrefEntryLine_length
      have hle := objectPositions_le bodies pdfHeaderBytes.length 1 i off h
      have : xrefStart bodies =
          pdfHeaderBytes.length + (objectsChunk 1 bodies).length := by
        simp [xrefStart]
      omega
    · have := objectPositions_point bodies 1 pdfHeaderBytes
        (xrefChunk bodies ++
          (("trailer\n").data ++ trailerBytes ++ ("\nstartxref\n").data ++
            decimalRepr (xrefStart bodies) ++ ("\n%%EOF\n").data)) i off h
      rw [show writeOutput bodies trailerBytes =
          pdfHeaderBytes ++ (objectsChunk 1 bodies ++
            (xrefChunk bodies ++
              (("trailer\n").data ++ trailerBytes ++ ("\nstartxref\n").data ++
                decimalRepr (xrefStart bodies) ++ ("\n%%EOF\n").data))) from by
        simp [writeOutput]]
      exact this

/-- C4 witness: the theorem applied to a one-object writer state, with the
per-entry facts instantiated at the single entry (offset 9, right after the
`%PDF-1.3\n` header). -/
theorem writer_xref_table_witness :
    ((writeOutput [some (['A'])] []).drop (xrefStart [some (['A'])]) =
      ("xref\n0 ").data ++ decimalRepr 2 ++ ['\n'] ++
      ("0000000000 65535 f \n").data ++
      ((writerPositions [some (['A'])]).map
        (fun off => xrefEntryLine off 0 'n')).flatten ++
      (("trailer\n").data ++ [] ++ ("\nstartxref\n").data ++
        decimalRepr (xrefStart [some (['A'])]) ++ ("\n%%EOF\n").data))
  ∧ (writerPositions [some (['A'])]).length = 1
  ∧ ((xrefEntryLine 9 0 'n').length = 20
      ∧ ((writeOutput [some (['A'])] []).drop 9).take
          (objHeaderBytes (1 + 0)).length = objHeaderBytes (1 + 0)) := by
  have h := writer_xref_table [some (['A'])] [] (by decide)
  exact ⟨h.1, h.2.1, h.2.2 0 9 (by decide)⟩

/-! ## The content-stream engine (`ContentStream` in `page_object.py`)

Operands are embedded by their canonical serialized token (a numeric
literal or a `/Name`); `readObject` of the absent `generic.py` is modelled
from the spec for these two operand kinds (section 4.C: leading digit or
sign dispatches to a number, `/` to a name), and inputs outside this
fragment (strings, arrays, dicts, inline images) make the embedded parser
return `none`. -/

/-- PDF whitespace, as skipped by `readNonWhitespace` (absent `utils.py`;
modelled from the spec's tokenizer description). -/
def isWSChar (c : Char) : Bool :=
  c == ' ' || c == '\n' || c == '\r' || c == '\t' || c == '\x00' || c == '\x0c'

/-- PDF delimiter characters (`NameObject.delimiterCharacters` of the
absent `generic.py`; modelled from the spec's section 4.A list). -/
def isDelimChar (c : Char) : Bool :=
  c == '(' || c == ')' || c == '<' || c == '>' || c == '[' || c == ']' ||
  c == '\x7b' || c == '\x7d' || c == '/' || c == '%'

/-- A regular character: ends neither an operator nor a name token. -/
def isRegularChar (c : Char) : Bool := !(isWSChar c) && !(isDelimChar c)

/-- First characters that make `__parseContentStream` read an operator:
`peek.isalpha() or peek == "'" or peek == '"'`. -/
def opStartChar (c : Char) : Bool := c.isAlpha || c == '\'' || c == '"'

/-- Characters of a numeric literal (digits, signs, decimal point). -/
def isNumChar (c : Char) : Bool :=
  c == '0' || c == '1' || c == '2' || c == '3' || c == '4' || c == '5' ||
  c == '6' || c == '7' || c == '8' || c == '9' || c == '+' || c == '-' ||
  c == '.'

/-- A content-stream operand, kept as its canonical serialized token. -/
inductive OpToken where
  | num (s : List Char)
  | name (s : List Char)
  deriving DecidableEq

def tokenChars : OpToken → List Char
  | .num s => s
  | .name s => s

/-- One record of `ContentStream.operations`: the operand list and the
operator string.  (Inline images are outside the embedded fragment.) -/
abbrev ContentOp := List OpToken × List Char

/-- Serialization of one operation in `ContentStream._getData`: each
operand followed by a space, then the operator, then a newline. -/
def serOp (op : ContentOp) : List Char :=
  (op.1.map (fun t => tokenChars t ++ [' '])).flatten ++ op.2 ++ ['\n']

/-- `ContentStream._getData`: the serialized operations, concatenated. -/
def serOps (ops : List ContentOp) : List Char := (ops.map serOp).flatten

theorem dropWhileLenLe {β : Type} (p : β → Bool) :
    ∀ l : List β, (l.dropWhile p).length ≤ l.length := by
  intro l
  induction l with
  | nil => simp [List.dropWhile]
  | cons a t ih =>
    cases h : p a with
    | true =>
      simp only [List.dropWhile_cons, h, if_true, List.length_cons]
      omega
    | false => simp [List.dropWhile_cons, h]

/-- `ContentStream.__parseContentStream`, on the numeric/name fragment:
skip whitespace; an alphabetic (or quote) character starts an operator that
consumes the pending operands (`BI` would enter inline-image parsing:
outside the fragment, `none`); `%` skips a comment through the end of line
(an unterminated comment at EOF loops forever in the source: `none`);
`/` reads a name operand, a numeric character a number operand; anything
else dispatches to object kinds outside the fragment (`none`).

The `fuel` argument is only a termination device: every step consumes at
least one character, so launching with `fuel = l.length` (as `parseCS`
does) never exhausts it, which `parseCSF_irrel` makes precise. -/
def parseCSF : Nat → List Char → List OpToken → Option (List ContentOp)
  | _, [], _ => some []
  | 0, _ :: _, _ => none
  | fuel + 1, c :: rest, operands =>
    if isWSChar c then parseCSF fuel rest operands
    else if opStartChar c then
      if c :: rest.takeWhile isRegularChar = ['B', 'I'] then none
      else
        match parseCSF fuel (rest.dropWhile isRegularChar) [] with
        | none => none
        | some tail => some ((operands, c :: rest.takeWhile isRegularChar) :: tail)
    else if c == '%' then
      if (rest.dropWhile (fun x => !(x == '\r' || x == '\n'))).isEmpty then none
      else parseCSF fuel (rest.dropWhile (fun x => !(x == '\r' || x == '\n'))) operands
    else if c == '/' then
      parseCSF fuel (rest.dropWhile isRegularChar)
        (operands ++ [OpToken.name ('/' :: rest.takeWhile isRegularChar)])
    else if isNumChar c then
      parseCSF fuel (rest.dropWhile isNumChar)
        (operands ++ [OpToken.num (c :: rest.takeWhile isNumChar)])
    else none

/-- `ContentStream.__parseContentStream` proper. -/
def parseCS (l : List Char) (operands : List OpToken) : Option (List ContentOp) :=
  parseCSF l.length l operands

theorem parseCSF_irrel :
    ∀ (fuel fuel' : Nat) (l : List Char) (acc : List OpToken),
      l.length ≤ fuel → l.length ≤ fuel' →
      parseCSF fuel l acc = parseCSF fuel' l acc := by
  intro fuel
  induction fuel with
  | zero =>
    intro fuel' l acc h _
    cases l with
    | nil => cases fuel' <;> rfl
    | cons c rest => simp at h
  | succ n ih =>
    intro fuel' l acc h h'
    cases l with
    | nil => cases fuel' <;> rfl
    | cons c rest =>
      cases fuel' with
      | zero => simp at h'
      | succ m =>
        simp only [List.length_cons, Nat.add_le_add_iff_right] at h h'
        simp only [parseCSF]
        split_ifs with h1 h2 h3 h4 h5 h6
        · exact ih m rest acc h h'
        · rfl
        · rw [ih m (rest.dropWhile isRegularChar) []
            (le_trans (dropWhileLenLe _ _) h) (le_trans (dropWhileLenLe _ _) h')]
        · rfl
        · exact ih m (rest.dropWhile _) acc
            (le_trans (dropWhileLenLe _ _) h) (le_trans (dropWhileLenLe _ _) h')
        · exact ih m (rest.dropWhile isRegularChar) _
            (le_trans (dropWhileLenLe _ _) h) (le_trans (dropWhileLenLe _ _) h')
        · exact ih m (rest.dropWhile isNumChar) _
            (le_trans (dropWhileLenLe _ _) h) (le_trans (dropWhileLenLe _ _) h')
        · rfl

theorem parseCSF_eq_parseCS (fuel : Nat) (l : List Char) (acc : List OpToken)
    (h : l.length ≤ fuel) : parseCSF fuel l acc = parseCS l acc :=
  parseCSF_irrel fuel l.length l acc h le_rfl

/-- The operand chunk of a serialized operation: each token followed by a
space. -/
def tokensChunk (tks : List OpToken) : List Char :=
  (tks.map (fun t => tokenChars t ++ [' '])).flatten

/-- Well-formed operand token: a nonempty numeric literal, or a name
(leading `/`, regular tail). -/
def wfToken : OpToken → Prop
  | .num s => s ≠ [] ∧ ∀ c ∈ s, isNumChar c = true
  | .name s => s.head? = some '/' ∧ ∀ c ∈ s.tail, isRegularChar c = true

/-- Well-formed operator string: nonempty, starting with an operator
character, all characters regular, and not the inline-image opener `BI`. -/
def wfOpr (s : List Char) : Prop :=
  s ≠ [] ∧ (∀ c ∈ s.take 1, opStartChar c = true) ∧
  (∀ c ∈ s, isRegularChar c = true) ∧ s ≠ ['B', 'I']

def wfOp (op : ContentOp) : Prop := (∀ t ∈ op.1, wfToken t) ∧ wfOpr op.2

def wfOps (ops : List ContentOp) : Prop := ∀ op ∈ ops, wfOp op

instance : DecidablePred wfToken := fun t => by
  cases t <;> simp only [wfToken] <;> infer_instance

instance : DecidablePred wfOpr := fun s => by
  unfold wfOpr; infer_instance

instance : DecidablePred wfOp := fun op => by
  unfold wfOp; infer_instance

instance : DecidablePred wfOps := fun ops => by
  unfold wfOps; infer_instance

theorem beq_false_of_pred (p : Char → Bool) {c d : Char} (h : p c = true)
    (hd : p d = false) : (c == d) = false := by
  cases hbe : c == d with
  | false => rfl
  | true =>
    have hcd : c = d := eq_of_beq hbe
    subst hcd
    rw [h] at hd
    exact Bool.noConfusion hd

theorem isNumChar_cases (c : Char) (h : isNumChar c = true) :
    c = '0' ∨ c = '1' ∨ c = '2' ∨ c = '3' ∨ c = '4' ∨ c = '5' ∨ c = '6' ∨
    c = '7' ∨ c = '8' ∨ c = '9' ∨ c = '+' ∨ c = '-' ∨ c = '.' := by
  simp only [isNumChar, Bool.or_eq_true, beq_iff_eq] at h
  tauto

theorem isNumChar_facts (c : Char) (h : isNumChar c = true) :
    isWSChar c = false ∧ opStartChar c = false ∧ (c == '%') = false ∧
    (c == '/') = false := by
  rcases isNumChar_cases c h with
    rfl | rfl | rfl | rfl | rfl | rfl | rfl | rfl | rfl | rfl | rfl | rfl | rfl <;>
    exact (by decide)

theorem opStart_not_ws (c : Char) (h : opStartChar c = true) :
    isWSChar c = false := by
  simp only [isWSChar,
    beq_false_of_pred opStartChar h (show opStartChar ' ' = false by decide),
    beq_false_of_pred opStartChar h (show opStartChar '\n' = false by decide),
    beq_false_of_pred opStartChar h (show opStartChar '\r' = false by decide),
    beq_false_of_pred opStartChar h (show opStartChar '\t' = false by decide),
    beq_false_of_pred opStartChar h (show opStartChar '\x00' = false by decide),
    beq_false_of_pred opStartChar h (show opStartChar '\x0c' = false by decide),
    Bool.or_self]

theorem opStart_regular (c : Char) (h : opStartChar c = true) :
    isRegularChar c = true := by
  simp only [isRegularChar, opStart_not_ws c h, isDelimChar,
    beq_false_of_pred opStartChar h (show opStartChar '(' = false by decide),
    beq_false_of_pred opStartChar h (show opStartChar ')' = false by decide),
    beq_false_of_pred opStartChar h (show opStartChar '<' = false by decide),
    beq_false_of_pred opStartChar h (show opStartChar '>' = false by decide),
    beq_false_of_pred opStartChar h (show opStartChar '[' = false by decide),
    beq_false_of_pred opStartChar h (show opStartChar ']' = false by decide),
    beq_false_of_pred opStartChar h (show opStartChar '\x7b' = false by decide),
    beq_false_of_pred opStartChar h (show opStartChar '\x7d' = false by decide),
    beq_false_of_pred opStartChar h (show opStartChar '/' = false by decide),
    beq_false_of_pred opStartChar h (show opStartChar '%' = false by decide),
    Bool.or_self, Bool.not_false, Bool.and_self]

theorem takeWhile_append_all {p : Char → Bool} :
    ∀ (t : List Char) (y : Char) (r : List Char),
      (∀ x ∈ t, p x = true) → p y = false →
      (t ++ y :: r).takeWhile p = t ∧ (t ++ y :: r).dropWhile p = y :: r := by
  intro t
  induction t with
  | nil =>
    intro y r _ hy
    simp [List.takeWhile_cons, List.dropWhile_cons, hy]
  | cons a t' ih =>
    intro y r hall hy
    have ha : p a = true := hall a (by simp)
    have hrec := ih y r (fun x hx => hall x (by simp [hx])) hy
    simp [List.takeWhile_cons, List.dropWhile_cons, ha, hrec.1, hrec.2]


theorem parseCS_nil (acc : List OpToken) : parseCS [] acc = some [] := rfl

theorem parseCS_ws_step (c : Char) (l : List Char) (acc : List OpToken)
    (h : isWSChar c = true) : parseCS (c :: l) acc = parseCS l acc := by
  simp only [parseCS, List.length_cons, parseCSF, h, if_true]

theorem parseCS_num_step (c : Char) (rest : List Char) (acc : List OpToken)
    (hc : isNumChar c = true) :
    parseCS (c :: rest) acc =
      parseCS (rest.dropWhile isNumChar)
        (acc ++ [OpToken.num (c :: rest.takeWhile isNumChar)]) := by
  obtain ⟨hws, hop, hpc, hsl⟩ := isNumChar_facts c hc
  simp only [parseCS, List.length_cons, parseCSF, hws, hop, hpc, hsl, hc,
    Bool.false_eq_true, if_false, if_true]
  exact parseCSF_irrel _ _ _ _ (dropWhileLenLe _ _) le_rfl

theorem parseCS_name_step (rest : List Char) (acc : List OpToken) :
    parseCS ('/' :: rest) acc =
      parseCS (rest.dropWhile isRegularChar)
        (acc ++ [OpToken.name ('/' :: rest.takeWhile isRegularChar)]) := by
  simp only [parseCS, List.length_cons, parseCSF,
    show isWSChar '/' = false from by decide,
    show opStartChar '/' = false from by decide,
    show ('/' == '%') = false from by decide,
    show ('/' == '/') = true from by decide,
    Bool.false_eq_true, if_false, if_true]
  exact parseCSF_irrel _ _ _ _ (dropWhileLenLe _ _) le_rfl

theorem parseCS_opr_step (c : Char) (rest : List Char) (acc : List OpToken)
    (hc : opStartChar c = true)
    (hBI : c :: rest.takeWhile isRegularChar ≠ ['B', 'I']) :
    parseCS (c :: rest) acc =
      (parseCS (rest.dropWhile isRegularChar) []).map
        (fun tail => (acc, c :: rest.takeWhile isRegularChar) :: tail) := by
  simp only [parseCS, List.length_cons, parseCSF, opStart_not_ws c hc, hc,
    Bool.false_eq_true, if_false, if_true]
  rw [if_neg hBI,
    parseCSF_irrel rest.length (rest.dropWhile isRegularChar).length
      (rest.dropWhile isRegularChar) [] (dropWhileLenLe _ _) le_rfl]
  cases parseCSF (rest.dropWhile isRegularChar).length
      (rest.dropWhile isRegularChar) [] <;> simp [parseCS]


theorem parseCS_token (tk : OpToken) (r : List Char) (acc : List OpToken)
    (hwf : wfToken tk) :
    parseCS (tokenChars tk ++ ' ' :: r) acc = parseCS r (acc ++ [tk]) := by
  cases tk with
  | num s =>
    obtain ⟨hne, hall⟩ := hwf
    obtain ⟨c, t, rfl⟩ : ∃ c t, s = c :: t := by
      cases s with
      | nil => exact absurd rfl hne
      | cons c t => exact ⟨c, t, rfl⟩
    have hc : isNumChar c = true := hall c (by simp)
    have htw := takeWhile_append_all (p := isNumChar) t ' ' r
      (fun x hx => hall x (by simp [hx])) (by decide)
    show parseCS (c :: (t ++ ' ' :: r)) acc = _
    rw [parseCS_num_step c _ acc hc, htw.1, htw.2,
      parseCS_ws_step ' ' r _ (by decide)]
  | name s =>
    obtain ⟨hhead, hall⟩ := hwf
    obtain ⟨t, rfl⟩ : ∃ t, s = '/' :: t := by
      cases s with
      | nil => exact absurd hhead (by simp)
      | cons c t =>
        simp only [List.head?_cons, Option.some.injEq] at hhead
        exact ⟨t, by rw [hhead]⟩
    have htw := takeWhile_append_all (p := isRegularChar) t ' ' r
      (fun x hx => hall x (by simpa using hx)) (by decide)
    show parseCS ('/' :: (t ++ ' ' :: r)) acc = _
    rw [parseCS_name_step _ acc, htw.1, htw.2,
      parseCS_ws_step ' ' r _ (by decide)]

theorem parseCS_tokens (tks : List OpToken) (r : List Char) (acc : List OpToken)
    (hwf : ∀ t ∈ tks, wfToken t) :
    parseCS (tokensChunk tks ++ r) acc = parseCS r (acc ++ tks) := by
  induction tks generalizing acc with
  | nil => simp [tokensChunk]
  | cons tk tks' ih =>
    have hsplit : tokensChunk (tk :: tks') ++ r =
        tokenChars tk ++ ' ' :: (tokensChunk tks' ++ r) := by
      simp [tokensChunk]
    rw [hsplit, parseCS_token tk _ acc (hwf tk (by simp)),
      ih (acc ++ [tk]) (fun t ht => hwf t (by simp [ht]))]
    simp

theorem parseCS_oprLine (opr : List Char) (s : List Char) (acc : List OpToken)
    (hwf : wfOpr opr) :
    parseCS (opr ++ '\n' :: s) acc =
      (parseCS s []).map (fun tail => (acc, opr) :: tail) := by
  obtain ⟨hne, hhead, hreg, hBI⟩ := hwf
  obtain ⟨c, t, rfl⟩ : ∃ c t, opr = c :: t := by
    cases opr with
    | nil => exact absurd rfl hne
    | cons c t => exact ⟨c, t, rfl⟩
  have hc : opStartChar c = true := hhead c (by simp)
  have htw := takeWhile_append_all (p := isRegularChar) t '\n' s
    (fun x hx => hreg x (by simp [hx])) (by decide)
  show parseCS (c :: (t ++ '\n' :: s)) acc = _
  rw [parseCS_opr_step c _ acc hc (by rw [htw.1]; exact hBI), htw.1, htw.2,
    parseCS_ws_step '\n' s [] (by decide)]

theorem parseCS_opLine (op : ContentOp) (s : List Char) (acc : List OpToken)
    (hwf : wfOp op) :
    parseCS (serOp op ++ s) acc =
      (parseCS s []).map (fun tail => (acc ++ op.1, op.2) :: tail) := by
  obtain ⟨tks, opr⟩ := op
  obtain ⟨htks, hopr⟩ := hwf
  have hsplit : serOp (tks, opr) ++ s = tokensChunk tks ++ (opr ++ '\n' :: s) := by
    simp [serOp, tokensChunk]
  rw [hsplit, parseCS_tokens tks _ acc htks, parseCS_oprLine opr s _ hopr]

theorem parseCS_spaceOpLine (tks : List OpToken) (opr : List Char)
    (s : List Char) (acc : List OpToken)
    (htks : ∀ t ∈ tks, wfToken t) (hopr : wfOpr opr) :
    parseCS (serOp (tks, ' ' :: opr) ++ s) acc =
      (parseCS s []).map (fun tail => (acc ++ tks, opr) :: tail) := by
  have hsplit : serOp (tks, ' ' :: opr) ++ s =
      tokensChunk tks ++ (' ' :: (opr ++ '\n' :: s)) := by
    simp [serOp, tokensChunk]
  rw [hsplit, parseCS_tokens tks _ acc htks,
    parseCS_ws_step ' ' _ _ (by decide), parseCS_oprLine opr s _ hopr]

theorem parseCS_serOps (ops : List ContentOp) (s : List Char) (hwf : wfOps ops) :
    parseCS (serOps ops ++ s) [] = (parseCS s []).map (fun tail => ops ++ tail) := by
  induction ops with
  | nil =>
    simp only [serOps, List.map_nil, List.flatten_nil, List.nil_append]
    cases parseCS s [] <;> simp
  | cons op ops' ih =>
    have hop := hwf op (by simp)
    have hops' : wfOps ops' := fun o ho => hwf o (by simp [ho])
    have hsplit : serOps (op :: ops') ++ s = serOp op ++ (serOps ops' ++ s) := by
      simp [serOps]
    rw [hsplit, parseCS_opLine op _ [] hop, ih hops']
    cases parseCS s [] <;> simp

theorem parseCS_roundtrip (ops : List ContentOp) (hwf : wfOps ops) :
    parseCS (serOps ops) [] = some ops := by
  have h := parseCS_serOps ops [] hwf
  rw [List.append_nil] at h
  rw [h, parseCS_nil]
  simp

/-! ## Page composition (`PageObject._mergePage` and friends) -/

/-- A value a page's `/Contents` can hold in this embedding: a raw stream
object (its decoded bytes) or an in-memory `ContentStream` (its parsed
operations).  `ContentStream.__init__` re-serializes the latter via
`getData` before re-parsing. -/
inductive StreamVal where
  | raw (data : List Char)
  | cs (ops : List ContentOp)
  deriving DecidableEq

/-- `stream.getObject().getData()`: the bytes of a stream value
(`_getData` re-serializes a `ContentStream`). -/
def csGetData : StreamVal → List Char
  | .raw d => d
  | .cs ops => serOps ops

/-- `ContentStream(stream, pdf)` on a single stream object: parse its
data. -/
def contentStreamOf (v : StreamVal) : Option (List ContentOp) :=
  parseCS (csGetData v) []

/-- `ContentStream(stream, pdf)` on an `ArrayObject`: concatenate the
member data, then parse. -/
def contentStreamOfArray (vs : List StreamVal) : Option (List ContentOp) :=
  parseCS ((vs.map csGetData).flatten) []

/-- `PageObject._pushPopGS`: re-tokenize, then insert `q` at the front and
append `Q`. -/
def pushPopGS (contents : StreamVal) : Option StreamVal :=
  (contentStreamOf contents).map
    (fun ops => .cs ((([], ['q']) :: ops) ++ [([], ['Q'])]))

/-- Modelled from the spec: serialization of a `FloatObject` (section 4.A:
decimal literal, no exponent, trailing zeros trimmed; the source's
`FloatObject.__repr__` prints integer-valued reals without a decimal
point, as the spec's scenario S3 output `0.5 0 0 0.5 0 0 cm` shows).
Fractional digits beyond six places are truncated, which is exact for the
values the claims use. -/
def floatTok (q : ℚ) : List Char :=
  let sign : List Char := if q < 0 then ['-'] else []
  let scaled := q.num.natAbs * 1000000 / q.den
  let ip := scaled / 1000000
  let fr := scaled % 1000000
  if fr = 0 then sign ++ decimalRepr ip
  else
    sign ++ decimalRepr ip ++ '.' ::
      ((fmtD 6 fr).reverse.dropWhile (fun c => c == '0')).reverse

/-- `PageObject._addTransformationMatrix`: re-tokenize, then insert the
operation `[[a, b, c, d, e, f], " cm"]` at the front — note the source's
operator string carries a leading space. -/
def addTransformationMatrix (contents : StreamVal) (ctm : List ℚ) :
    Option StreamVal :=
  (contentStreamOf contents).map
    (fun ops =>
      .cs ((ctm.map (fun x => OpToken.num (floatTok x)), [' ', 'c', 'm']) :: ops))

/-- The rewrite `operands[i] = rename.get(op, op)` applied to one operand
of `_contentStreamRename` (only `NameObject` operands are rewritten). -/
def renameTok (rename : List (List Char × List Char)) : OpToken → OpToken
  | .name s =>
    match aLookup rename s with
    | some n => .name n
    | none => .name s
  | t => t

/-- `PageObject._contentStreamRename`: the stream is returned untouched
when the rename table is empty, otherwise it is re-tokenized and every
name operand is pushed through the table. -/
def contentStreamRename (contents : StreamVal)
    (rename : List (List Char × List Char)) : Option StreamVal :=
  if rename.isEmpty then some contents
  else
    (contentStreamOf contents).map
      (fun ops => .cs (ops.map (fun op => (op.1.map (renameTok rename), op.2))))

/-! ## Resource merging (`PageObject._mergeResources`) -/

/-- A value stored in a resource dictionary: either a direct object or an
indirect reference; `raw_get` returns it as stored, `[]`-access resolves
it through the owning document (`resolver`). -/
inductive PObj (α : Type) where
  | direct (v : α)
  | indirect (ref : Nat)
  deriving DecidableEq

def resolveP {α : Type} (resolver : Nat → α) : PObj α → α
  | .direct v => v
  | .indirect r => resolver r

def renamedSuffix : List Char := ("renamed").data

/-- The body of the `for key in page2Res.keys()` loop of
`_mergeResources`: on a value conflict insert the resolved second value
under `key + "renamed"` and record the rename; when the key is new, store
`page2Res.raw_get(key)`. -/
def mergeResStep {α : Type} [DecidableEq α] (resolver : Nat → α)
    (r2 : List (List Char × PObj α))
    (acc : List (List Char × PObj α) × List (List Char × List Char))
    (key : List Char) :
    List (List Char × PObj α) × List (List Char × List Char) :=
  match aLookup r2 key with
  | none => acc
  | some raw2 =>
    match aLookup acc.1 key with
    | some raw1 =>
      if resolveP resolver raw1 ≠ resolveP resolver raw2 then
        (aSet acc.1 (key ++ renamedSuffix) (PObj.direct (resolveP resolver raw2)),
         aSet acc.2 key (key ++ renamedSuffix))
      else acc
    | none => (aSet acc.1 key raw2, acc.2)

/-- `PageObject._mergeResources(res1, res2, resource)` restricted to one
already-fetched category pair: start from the first page's entries and fold
the loop body over the second page's keys, returning the merged category
and the rename table. -/
def mergeResources {α : Type} [DecidableEq α] (resolver : Nat → α)
    (r1 r2 : List (List Char × PObj α)) :
    List (List Char × PObj α) × List (List Char × List Char) :=
  (r2.map (fun e => e.1)).foldl (mergeResStep resolver r2) (r1, [])

/-- The seven resource categories `_mergePage` merges. -/
def resourceCategories : List (List Char) :=
  [("/ExtGState").data, ("/Font").data, ("/XObject").data,
   ("/ColorSpace").data, ("/Pattern").data, ("/Shading").data,
   ("/Properties").data]

/-- `res.get(resource, DictionaryObject()).getObject()`: a page's category
dictionary, empty when absent. -/
def catOf {α : Type} (r : List (List Char × List (List Char × PObj α)))
    (c : List Char) : List (List Char × PObj α) :=
  (aLookup r c).getD []

/-- The flat rename table accumulated by `_mergePage`:
`rename.update(newrename)` after each category merge. -/
def computeRename {α : Type} [DecidableEq α] (resolver : Nat → α)
    (r1 r2 : List (List Char × List (List Char × PObj α))) :
    List (List Char × List Char) :=
  resourceCategories.foldl
    (fun ren c =>
      ((mergeResources resolver (catOf r1 c) (catOf r2 c)).2).foldl
        (fun d e => aSet d e.1 e.2) ren)
    []

/-- The content composition of `PageObject._mergePage`, producing the
bytes of the final `/Contents` stream (its `_getData`): wrap this page's
content in `q`/`Q`; transform (when a `ctm` is given), rename, and wrap the
other page's content; concatenate and re-tokenize. -/
def mergePageContents {α : Type} [DecidableEq α] (resolver : Nat → α)
    (r1 r2 : List (List Char × List (List Char × PObj α)))
    (origContents page2Contents : Option StreamVal)
    (ctm : Option (List ℚ)) : Option (List Char) := do
  let rename := computeRename resolver r1 r2
  let arr1 ← match origContents with
    | none => pure ([] : List StreamVal)
    | some c => do
      let s ← pushPopGS c
      pure [s]
  let arr2 ← match page2Contents with
    | none => pure ([] : List StreamVal)
    | some c => do
      let c1 ← match ctm with
        | none => pure c
        | some m => addTransformationMatrix c m
      let c2 ← contentStreamRename c1 rename
      let s ← pushPopGS c2
      pure [s]
  let finalOps ← contentStreamOfArray (arr1 ++ arr2)
  pure (serOps finalOps)

/-- `PageObject.mergePage(page2)`: no transformation. -/
def mergePagePlain {α : Type} [DecidableEq α] (resolver : Nat → α)
    (r1 r2 : List (List Char × List (List Char × PObj α)))
    (origContents page2Contents : Option StreamVal) : Option (List Char) :=
  mergePageContents resolver r1 r2 origContents page2Contents none

/-- `PageObject.mergeScaledPage(page2, factor)`:
`mergeTransformedPage(page2, [factor, 0, 0, factor, 0, 0])`. -/
def mergeScaledPageContents {α : Type} [DecidableEq α] (resolver : Nat → α)
    (r1 r2 : List (List Char × List (List Char × PObj α)))
    (origContents page2Contents : Option StreamVal) (factor : ℚ) :
    Option (List Char) :=
  mergePageContents resolver r1 r2 origContents page2Contents
    (some [factor, 0, 0, factor, 0, 0])

theorem serOps_cons (op : ContentOp) (ops : List ContentOp) :
    serOps (op :: ops) = serOp op ++ serOps ops := by
  simp [serOps]

theorem serOps_append (a b : List ContentOp) :
    serOps (a ++ b) = serOps a ++ serOps b := by
  simp [serOps]

theorem wfOps_qQ_wrap (ops : List ContentOp) (hw : wfOps ops) :
    wfOps ((([], ['q']) :: ops) ++ [([], ['Q'])]) := by
  intro op hop
  rcases List.mem_append.mp hop with h | h
  · rcases List.mem_cons.mp h with rfl | h
    · exact (by decide)
    · exact hw op h
  · have : op = ([], ['Q']) := by simpa using h
    subst this
    exact (by decide)

/-- C6 (amended).  Merging a page with no `/Contents` (a blank page) into a
page with content yields a content stream byte-identical to
`q\n<original>\nQ\n`: the original content wrapped in a single `q`/`Q`
pair, with no second, empty `q`/`Q` pair (the source skips the second wrap
entirely because `page2.getContents()` is `None`). -/
theorem merge_blank_page_content {α : Type} [DecidableEq α] (resolver : Nat → α)
    (r1 r2 : List (List Char × List (List Char × PObj α)))
    (d1 : List Char) (ops1 : List ContentOp)
    (h1 : parseCS d1 [] = some ops1) (hw : wfOps ops1) :
    mergePagePlain resolver r1 r2 (some (.raw d1)) none =
      some (('q' :: '\n' :: serOps ops1) ++ ("Q\n").data) := by
  have hwA := wfOps_qQ_wrap ops1 hw
  have hrt := parseCS_roundtrip _ hwA
  simp only [mergePagePlain, mergePageContents, pushPopGS, contentStreamOf,
    csGetData, h1, Option.map_some']
  simp only [Option.pure_def, Option.bind_eq_bind, Option.some_bind,
    contentStreamOfArray, List.append_nil, List.map_cons, List.map_nil,
    csGetData, List.flatten_cons, List.flatten_nil, hrt]
  simp [serOps_cons, serOps_append, serOps, serOp]

/-- C6 witness: the amended theorem at a concrete one-operator content
stream. -/
theorem merge_blank_page_content_witness :
    mergePagePlain (fun _ : Nat => (0 : Nat)) [] []
        (some (.raw (("g\n").data))) none =
      some (('q' :: '\n' :: serOps [([], ['g'])]) ++ ("Q\n").data) :=
  merge_blank_page_content (fun _ : Nat => (0 : Nat)) [] [] (("g\n").data)
    [([], ['g'])] (by decide) (by decide)

/-- C6 counterexample: merging a blank (no `/Contents`) page into a page
whose content is `BT\nET\n` produces `q\nBT\nET\nQ\n`, which is not the
claimed `q\n<original>\nQ\nq\nQ\n` (no second, empty `q`/`Q` pair is
emitted). -/
theorem merge_blank_page_counterexample :
    mergePagePlain (fun _ : Nat => (0 : Nat)) [] []
        (some (.raw (("BT\nET\n").data))) none =
      some (("q\nBT\nET\nQ\n").data)
  ∧ (("q\nBT\nET\nQ\n").data : List Char) ≠ ("q\nBT\nET\nQ\nq\nQ\n").data :=
  ⟨by decide, by decide⟩

/-! ## Occurrence counting, for the scenario claim about `cm` -/

/-- Number of positions of `l` at which `pat` occurs as a sub-sequence of
consecutive characters. -/
def countOcc (pat : List Char) : List Char → Nat
  | [] => 0
  | c :: rest =>
    (if (c :: rest).take pat.length = pat then 1 else 0) + countOcc pat rest

theorem take_eq_pat_append_iff (pat A : List Char) (c : Char) (Y : List Char)
    (hc : c ∉ pat) :
    ((A ++ c :: Y).take pat.length = pat) ↔ (A.take pat.length = pat) := by
  constructor
  · intro h
    by_cases hlen : pat.length ≤ A.length
    · rw [List.take_append_eq_append_take] at h
      rw [show pat.length - A.length = 0 from by omega] at h
      simpa using h
    · exfalso
      rw [List.take_append_eq_append_take, List.take_cons] at h
      · apply hc
        rw [← h]
        exact List.mem_append_right _ (List.mem_cons_self _ _)
      · omega
  · intro h
    have hlen : pat.length ≤ A.length := by
      have := congrArg List.length h
      simp only [List.length_take] at this
      omega
    rw [List.take_append_eq_append_take,
      show pat.length - A.length = 0 from by omega]
    simpa using h

theorem countOcc_break (pat : List Char) (hne : pat ≠ []) (c : Char)
    (hc : c ∉ pat) :
    ∀ (X Y : List Char),
      countOcc pat (X ++ c :: Y) = countOcc pat X + countOcc pat Y := by
  intro X
  induction X with
  | nil =>
    intro Y
    simp only [List.nil_append, countOcc]
    have hind : ¬((c :: Y).take pat.length = pat) := by
      intro h
      obtain ⟨p, t, rfl⟩ : ∃ p t, pat = p :: t := by
        cases pat with
        | nil => exact absurd rfl hne
        | cons p t => exact ⟨p, t, rfl⟩
      rw [List.length_cons, List.take_cons] at h
      · apply hc
        rw [← h]
        exact List.mem_cons_self _ _
      · omega
    simp [hind]
  | cons x X' ih =>
    intro Y
    have hiff := take_eq_pat_append_iff pat (x :: X') c Y hc
    simp only [List.cons_append] at hiff
    simp only [List.cons_append, countOcc, List.append_eq, ih Y, hiff]
    omega

theorem countOcc_cons_break (pat : List Char) (hne : pat ≠ []) (c : Char)
    (hc : c ∉ pat) (Y : List Char) :
    countOcc pat (c :: Y) = countOcc pat Y := by
  have h := countOcc_break pat hne c hc [] Y
  simpa [countOcc] using h

/-- The byte shape S3 describes: this page's content wrapped in `q`/`Q`,
then the other page's content prefixed by the half-scale `cm` and wrapped
in `q`/`Q`. -/
def scaledMergeBytes (s1 s2 : List Char) : List Char :=
  ('q' :: '\n' :: s1) ++ ("Q\nq\n").data ++ ("0.5 0 0 0.5 0 0 cm").data ++
  ('\n' :: s2) ++ ("Q\n").data

/-- C5.  `mergeScaledPage(other, 0.5)` on a page with content `d1` and an
other page with content `d2` (no resource renames, and neither content
serialization containing the half-scale `cm` sequence) produces exactly
the bytes of `scaledMergeBytes`: they begin with `q`, contain exactly one
occurrence of `0.5 0 0 0.5 0 0 cm`, followed by the other page's content
and a closing `Q`. -/
theorem merge_scaled_half_content {α : Type} [DecidableEq α]
    (resolver : Nat → α)
    (r1 r2 : List (List Char × List (List Char × PObj α)))
    (d1 d2 : List Char) (ops1 ops2 : List ContentOp)
    (h1 : parseCS d1 [] = some ops1) (hw1 : wfOps ops1)
    (h2 : parseCS d2 [] = some ops2) (hw2 : wfOps ops2)
    (hren : computeRename resolver r1 r2 = [])
    (hc1 : countOcc (("0.5 0 0 0.5 0 0 cm").data) (serOps ops1) = 0)
    (hc2 : countOcc (("0.5 0 0 0.5 0 0 cm").data) (serOps ops2) = 0) :
    mergeScaledPageContents resolver r1 r2 (some (.raw d1)) (some (.raw d2))
        (1/2) =
      some (scaledMergeBytes (serOps ops1) (serOps ops2))
  ∧ (scaledMergeBytes (serOps ops1) (serOps ops2)).head? = some 'q'
  ∧ countOcc (("0.5 0 0 0.5 0 0 cm").data)
      (scaledMergeBytes (serOps ops1) (serOps ops2)) = 1 := by
  have hhalf : (1/2 : ℚ) = (⟨1, 2, by decide, by decide⟩ : ℚ) := by
    have ha : ((1 : ℚ)/2).num = 1 := by norm_num
    have hb : ((1 : ℚ)/2).den = 2 := by norm_num
    exact Rat.ext ha hb
  have htoks : ([(1 : ℚ)/2, 0, 0, 1/2, 0, 0]).map
        (fun x => OpToken.num (floatTok x)) =
      [OpToken.num ('0' :: '.' :: '5' :: []), OpToken.num ['0'],
       OpToken.num ['0'], OpToken.num ('0' :: '.' :: '5' :: []),
       OpToken.num ['0'], OpToken.num ['0']] := by
    rw [hhalf]; decide
  have hwA : wfOps (([], ['q']) :: (ops1 ++ [([], ['Q'])])) := by
    have h := wfOps_qQ_wrap ops1 hw1
    simpa using h
  have hcmop : wfOp (([OpToken.num ('0' :: '.' :: '5' :: []), OpToken.num ['0'],
      OpToken.num ['0'], OpToken.num ('0' :: '.' :: '5' :: []),
      OpToken.num ['0'], OpToken.num ['0']], ['c', 'm']) : ContentOp) := by
    decide
  have hwB : wfOps (([], ['q']) ::
      (([OpToken.num ('0' :: '.' :: '5' :: []), OpToken.num ['0'],
         OpToken.num ['0'], OpToken.num ('0' :: '.' :: '5' :: []),
         OpToken.num ['0'], OpToken.num ['0']], ['c', 'm']) ::
        (ops2 ++ [([], ['Q'])]))) := by
    have h := wfOps_qQ_wrap (([OpToken.num ('0' :: '.' :: '5' :: []),
        OpToken.num ['0'], OpToken.num ['0'],
        OpToken.num ('0' :: '.' :: '5' :: []), OpToken.num ['0'],
        OpToken.num ['0']], ['c', 'm']) :: ops2) (by
      intro op hop
      rcases List.mem_cons.mp hop with rfl | h
      · exact hcmop
      · exact hw2 op h)
    simpa using h
  have hinner : parseCS (serOps
      (([OpToken.num ('0' :: '.' :: '5' :: []), OpToken.num ['0'],
         OpToken.num ['0'], OpToken.num ('0' :: '.' :: '5' :: []),
         OpToken.num ['0'], OpToken.num ['0']], [' ', 'c', 'm']) :: ops2)) [] =
      some (([OpToken.num ('0' :: '.' :: '5' :: []), OpToken.num ['0'],
         OpToken.num ['0'], OpToken.num ('0' :: '.' :: '5' :: []),
         OpToken.num ['0'], OpToken.num ['0']], ['c', 'm']) :: ops2) := by
    rw [serOps_cons,
      show ([' ', 'c', 'm'] : List Char) = ' ' :: ['c', 'm'] from rfl,
      parseCS_spaceOpLine _ _ _ _ hcmop.1 (by decide),
      parseCS_roundtrip ops2 hw2]
    simp
  have hcmline : serOp (([OpToken.num ('0' :: '.' :: '5' :: []),
      OpToken.num ['0'], OpToken.num ['0'],
      OpToken.num ('0' :: '.' :: '5' :: []), OpToken.num ['0'],
      OpToken.num ['0']], ['c', 'm']) : ContentOp) =
      ("0.5 0 0 0.5 0 0 cm").data ++ ['\n'] := by decide
  refine ⟨?_, rfl, ?_⟩
  · simp only [mergeScaledPageContents, mergePageContents, hren, pushPopGS,
      contentStreamOf, csGetData, h1, h2, addTransformationMatrix,
      Option.map_some', htoks, contentStreamRename, List.isEmpty_nil,
      if_true, Option.pure_def, Option.bind_eq_bind, Option.some_bind,
      hinner, contentStreamOfArray, List.cons_append, List.nil_append,
      List.map_cons, List.map_nil, List.flatten_cons, List.flatten_nil,
      List.append_nil]
    rw [parseCS_serOps _ _ hwA, parseCS_roundtrip _ hwB]
    simp only [Option.map_some', Option.some_bind]
    rw [serOps_append]
    simp only [serOps_cons, serOps_append, hcmline,
      show serOp (([], ['q']) : ContentOp) = ['q', '\n'] from rfl,
      show serOp (([], ['Q']) : ContentOp) = ['Q', '\n'] from rfl,
      serOps, List.map_nil, List.flatten_nil, List.map_cons,
      List.flatten_cons]
    simp [scaledMergeBytes,
      show serOp (([], ['Q']) : ContentOp) = ['Q', '\n'] from rfl]
  · have hpne : (("0.5 0 0 0.5 0 0 cm").data : List Char) ≠ [] := by decide
    have hq : 'q' ∉ (("0.5 0 0 0.5 0 0 cm").data : List Char) := by decide
    have hQ : 'Q' ∉ (("0.5 0 0 0.5 0 0 cm").data : List Char) := by decide
    have hnl : '\n' ∉ (("0.5 0 0 0.5 0 0 cm").data : List Char) := by decide
    have hself : countOcc (("0.5 0 0 0.5 0 0 cm").data)
        (("0.5 0 0 0.5 0 0 cm").data) = 1 := by decide
    have hnlc : countOcc (("0.5 0 0 0.5 0 0 cm").data) ['\n'] = 0 := by decide
    have e : scaledMergeBytes (serOps ops1) (serOps ops2) =
        'q' :: '\n' :: (serOps ops1 ++ 'Q' ::
          ('\n' :: 'q' :: '\n' :: ((("0.5 0 0 0.5 0 0 cm").data) ++
            '\n' :: (serOps ops2 ++ 'Q' :: ['\n'])))) := by
      simp [scaledMergeBytes,
        show ("Q\nq\n").data = 'Q' :: '\n' :: 'q' :: '\n' :: [] from rfl,
        show ("Q\n").data = 'Q' :: '\n' :: [] from rfl]
    rw [e, countOcc_cons_break _ hpne 'q' hq, countOcc_cons_break _ hpne '\n' hnl,
      countOcc_break _ hpne 'Q' hQ (serOps ops1), hc1,
      countOcc_cons_break _ hpne '\n' hnl, countOcc_cons_break _ hpne 'q' hq,
      countOcc_cons_break _ hpne '\n' hnl,
      countOcc_break _ hpne '\n' hnl (("0.5 0 0 0.5 0 0 cm").data), hself,
      countOcc_break _ hpne 'Q' hQ (serOps ops2), hc2, hnlc]

/-- C5 witness: the theorem at a concrete pair of one-operator contents. -/
theorem merge_scaled_half_content_witness :
    mergeScaledPageContents (fun _ : Nat => (0 : Nat)) [] []
        (some (.raw (("g\n").data))) (some (.raw (("W\n").data))) (1/2) =
      some (scaledMergeBytes (serOps [([], ['g'])]) (serOps [([], ['W'])]))
  ∧ (scaledMergeBytes (serOps [([], ['g'])]) (serOps [([], ['W'])])).head? =
      some 'q'
  ∧ countOcc (("0.5 0 0 0.5 0 0 cm").data)
      (scaledMergeBytes (serOps [([], ['g'])]) (serOps [([], ['W'])])) = 1 :=
  merge_scaled_half_content (fun _ : Nat => (0 : Nat)) [] [] (("g\n").data)
    (("W\n").data) [([], ['g'])] [([], ['W'])] (by decide) (by decide)
    (by decide) (by decide) (by decide) (by decide) (by decide)

/-! ## C7: `_mergeResources` stores the raw form for absent keys -/

theorem aLookup_map_set_ne {κ V : Type} [DecidableEq κ] (d : List (κ × V))
    (k' k : κ) (v : V) (h : k' ≠ k) :
    aLookup (d.map (fun e => if e.1 = k' then (k', v) else e)) k =
      aLookup d k := by
  induction d with
  | nil => rfl
  | cons e rest ih =>
    obtain ⟨ke, ve⟩ := e
    by_cases he : ke = k'
    · subst he
      simp only [List.map_cons, if_pos rfl]
      simp [aLookup, h, ih]
    · simp only [List.map_cons, if_neg he]
      by_cases hek : ke = k <;> simp [aLookup, hek, ih]

theorem aLookup_aSet_ne {κ V : Type} [DecidableEq κ] (d : List (κ × V))
    (k' k : κ) (v : V) (h : k' ≠ k) :
    aLookup (aSet d k' v) k = aLookup d k := by
  unfold aSet
  cases hd : aLookup d k' with
  | some w => exact aLookup_map_set_ne d k' k v h
  | none =>
    rw [aLookup_append]
    simp [aLookup, h]

theorem aLookup_some_mem {κ V : Type} [DecidableEq κ] (d : List (κ × V))
    (k : κ) (v : V) (h : aLookup d k = some v) :
    k ∈ d.map (fun e => e.1) := by
  induction d with
  | nil => cases h
  | cons e rest ih =>
    obtain ⟨ke, ve⟩ := e
    by_cases he : ke = k
    · simp [he]
    · simp only [aLookup, if_neg he] at h
      simp [ih h]

theorem mergeResStep_lookup_preserved {α : Type} [DecidableEq α]
    (resolver : Nat → α) (r2 : List (List Char × PObj α))
    (acc : List (List Char × PObj α) × List (List Char × List Char))
    (k' key : List Char) (hne : k' ≠ key)
    (hren : k' ++ renamedSuffix ≠ key) :
    aLookup (mergeResStep resolver r2 acc k').1 key = aLookup acc.1 key := by
  unfold mergeResStep
  cases h2 : aLookup r2 k' with
  | none => rfl
  | some raw2 =>
    cases h1 : aLookup acc.1 k' with
    | some raw1 =>
      by_cases hd : resolveP resolver raw1 ≠ resolveP resolver raw2
      · simp only [if_pos hd]
        exact aLookup_aSet_ne _ _ _ _ hren
      · simp only [if_neg hd]
    | none =>
      exact aLookup_aSet_ne _ _ _ _ hne

theorem mergeRes_fold_preserved {α : Type} [DecidableEq α]
    (resolver : Nat → α) (r2 : List (List Char × PObj α)) (key : List Char) :
    ∀ (keys : List (List Char))
      (acc : List (List Char × PObj α) × List (List Char × List Char)),
      (∀ k' ∈ keys, k' ≠ key ∧ k' ++ renamedSuffix ≠ key) →
      aLookup ((keys.foldl (mergeResStep resolver r2) acc).1) key =
        aLookup acc.1 key := by
  intro keys
  induction keys with
  | nil => intro acc _; rfl
  | cons k' rest ih =>
    intro acc hks
    rw [List.foldl_cons,
      ih (mergeResStep resolver r2 acc k') (fun x hx => hks x (by simp [hx])),
      mergeResStep_lookup_preserved resolver r2 acc k' key
        (hks k' (by simp)).1 (hks k' (by simp)).2]

/-- C7 counterexample: when the second page's category holds an indirect
reference under a key the first page lacks, `_mergeResources` stores the
raw indirect reference (`raw_get`), not the resolved object the claim
asserts. -/
theorem mergeResources_raw_counterexample :
    aLookup (mergeResources (fun _ => (42 : Nat)) []
        [(("/F1").data, PObj.indirect 7)]).1 (("/F1").data) =
      some (PObj.indirect 7)
  ∧ some (PObj.indirect 7) ≠
      some (PObj.direct ((fun _ => (42 : Nat)) 7)) :=
  ⟨by decide, by decide⟩

/-- C7 (amended).  For every key present in the second page's resource
category but absent from the first page's, `_mergeResources` stores the
raw, possibly indirect-reference value `page2Res.raw_get(key)` — not the
resolved `page2Res[key]`.  (The side conditions rule out key collisions
with other keys and with `"renamed"`-suffixed names.) -/
theorem mergeResources_absent_key_raw {α : Type} [DecidableEq α]
    (resolver : Nat → α) (r1 r2 : List (List Char × PObj α))
    (key : List Char) (raw2 : PObj α)
    (hnd : (r2.map (fun e => e.1)).Nodup)
    (h1 : aLookup r1 key = none)
    (h2 : aLookup r2 key = some raw2)
    (hren : ∀ k' ∈ r2.map (fun e => e.1), k' ++ renamedSuffix ≠ key) :
    aLookup (mergeResources resolver r1 r2).1 key = some raw2 := by
  obtain ⟨pre, post, hsplit⟩ :=
    List.append_of_mem (aLookup_some_mem r2 key raw2 h2)
  unfold mergeResources
  rw [hsplit, List.foldl_append, List.foldl_cons]
  rw [hsplit, List.nodup_append] at hnd
  have hkpre : key ∉ pre := fun hk => hnd.2.2 hk (List.mem_cons_self _ _)
  have hkpost : key ∉ post := by
    have := hnd.2.1
    simp only [List.nodup_cons] at this
    exact this.1
  have hprefix_mem : ∀ k' ∈ pre, k' ∈ r2.map (fun e => e.1) := by
    intro k' hk'
    rw [hsplit]
    exact List.mem_append_left _ hk'
  have hpost_mem : ∀ k' ∈ post, k' ∈ r2.map (fun e => e.1) := by
    intro k' hk'
    rw [hsplit]
    exact List.mem_append_right _ (List.mem_cons_of_mem _ hk')
  have hphase1 :
      aLookup ((pre.foldl (mergeResStep resolver r2) (r1, [])).1) key = none := by
    rw [mergeRes_fold_preserved resolver r2 key pre (r1, [])
      (fun k' hk' => ⟨fun he => hkpre (he ▸ hk'),
        hren k' (hprefix_mem k' hk')⟩)]
    exact h1
  set acc1 := pre.foldl (mergeResStep resolver r2) (r1, []) with hacc1
  have hstep : aLookup ((mergeResStep resolver r2 acc1 key).1) key = some raw2 := by
    unfold mergeResStep
    rw [h2, hphase1]
    show aLookup (aSet acc1.1 key raw2) key = some raw2
    unfold aSet
    rw [hphase1, aLookup_append, hphase1]
    simp [aLookup]
  rw [mergeRes_fold_preserved resolver r2 key post _
    (fun k' hk' => ⟨fun he => hkpost (he ▸ hk'), hren k' (hpost_mem k' hk')⟩)]
  exact hstep

/-- C7 witness: the amended theorem at the counterexample's input. -/
theorem mergeResources_absent_key_raw_witness :
    aLookup (mergeResources (fun _ => (42 : Nat)) []
        [(("/F2").data, PObj.indirect 9)]).1 (("/F2").data) =
      some (PObj.indirect 9) :=
  mergeResources_absent_key_raw (fun _ => (42 : Nat)) []
    [(("/F2").data, PObj.indirect 9)] (("/F2").data) (PObj.indirect 9)
    (by decide) (by decide) (by decide) (by decide)

/-! ## C9: `PageObject.scaleTo` uses `getLowerLeft_x` in both denominators -/

/-- A `RectangleObject`: lower-left and upper-right corners. -/
structure RectQ where
  llx : ℚ
  lly : ℚ
  urx : ℚ
  ury : ℚ
  deriving DecidableEq

/-- The page state `scale`/`scaleTo` touch: the `/MediaBox` and the
optional `/Contents`. -/
structure PageSt where
  mediaBox : RectQ
  contents : Option StreamVal
  deriving DecidableEq

/-- `PageObject.addTransformation(ctm)`: when the page has content, prepend
the `cm` and wrap in `q`/`Q`; a page without content is left unchanged. -/
def addTransformationP (pg : PageSt) (ctm : List ℚ) : Option PageSt :=
  match pg.contents with
  | none => some pg
  | some c => do
    let c1 ← addTransformationMatrix c ctm
    let c2 ← pushPopGS c1
    pure { pg with contents := some c2 }

/-- `PageObject.scale(sx, sy)`: apply the `[sx 0 0 sy 0 0]` transformation
to the content and scale the media box coordinates. -/
def scaleP (sx sy : ℚ) (pg : PageSt) : Option PageSt :=
  (addTransformationP pg [sx, 0, 0, sy, 0, 0]).map
    (fun pg1 =>
      { pg1 with mediaBox :=
          ⟨pg.mediaBox.llx * sx, pg.mediaBox.lly * sy,
           pg.mediaBox.urx * sx, pg.mediaBox.ury * sy⟩ })

/-- `PageObject.scaleTo(width, height)`, translated verbatim: the `sy`
denominator subtracts `getLowerLeft_x()` (not `getLowerLeft_y()`) from
`getUpperRight_y()`, exactly as in the source. -/
def scaleToP (width height : ℚ) (pg : PageSt) : Option PageSt :=
  scaleP (width / (pg.mediaBox.urx - pg.mediaBox.llx))
         (height / (pg.mediaBox.ury - pg.mediaBox.llx)) pg

/-- C9.  `scaleTo(width, height)` computes
`sx = width / (urx - llx)` and `sy = height / (ury - llx)` — the `sy`
denominator uses the lower-left x coordinate — and then applies
`scale(sx, sy)`; consequently the resulting media box is the original one
scaled by those two factors.  (The nonzero-denominator hypotheses mark
where the Python source would raise `ZeroDivisionError`.) -/
theorem scaleTo_uses_llx (pg : PageSt) (width height : ℚ)
    (hx : pg.mediaBox.urx ≠ pg.mediaBox.llx)
    (hy : pg.mediaBox.ury ≠ pg.mediaBox.llx) :
    scaleToP width height pg =
      scaleP (width / (pg.mediaBox.urx - pg.mediaBox.llx))
        (height / (pg.mediaBox.ury - pg.mediaBox.llx)) pg
  ∧ ∀ pg', scaleToP width height pg = some pg' →
      pg'.mediaBox =
        ⟨pg.mediaBox.llx * (width / (pg.mediaBox.urx - pg.mediaBox.llx)),
         pg.mediaBox.lly * (height / (pg.mediaBox.ury - pg.mediaBox.llx)),
         pg.mediaBox.urx * (width / (pg.mediaBox.urx - pg.mediaBox.llx)),
         pg.mediaBox.ury * (height / (pg.mediaBox.ury - pg.mediaBox.llx))⟩ := by
  refine ⟨rfl, ?_⟩
  intro pg' hpg
  unfold scaleToP scaleP at hpg
  cases hadd : addTransformationP pg
      [width / (pg.mediaBox.urx - pg.mediaBox.llx), 0, 0,
       height / (pg.mediaBox.ury - pg.mediaBox.llx), 0, 0] with
  | none => rw [hadd] at hpg; cases hpg
  | some pg1 =>
    rw [hadd] at hpg
    simp only [Option.map_some', Option.some.injEq] at hpg
    rw [← hpg]

/-- C9 witness: a content-free page with media box `[0 0 2 4]` scaled to
width 1 and height 1. -/
theorem scaleTo_uses_llx_witness :
    scaleToP 1 1 ⟨⟨0, 0, 2, 4⟩, none⟩ =
      scaleP (1 / ((2 : ℚ) - 0)) (1 / ((4 : ℚ) - 0)) ⟨⟨0, 0, 2, 4⟩, none⟩
  ∧ (PageSt.mk ⟨0 * (1 / ((2 : ℚ) - 0)), 0 * (1 / ((4 : ℚ) - 0)),
        2 * (1 / ((2 : ℚ) - 0)), 4 * (1 / ((4 : ℚ) - 0))⟩ none).mediaBox =
      ⟨0 * (1 / ((2 : ℚ) - 0)), 0 * (1 / ((4 : ℚ) - 0)),
       2 * (1 / ((2 : ℚ) - 0)), 4 * (1 / ((4 : ℚ) - 0))⟩ := by
  have h := scaleTo_uses_llx ⟨⟨0, 0, 2, 4⟩, none⟩ 1 1 (by norm_num) (by norm_num)
  exact ⟨h.1, h.2 _ rfl⟩
